import Mathlib

/-!
Verification development for the pairs_ml statistical-arbitrage research engine.

The quantitative core (hedge-ratio estimation, spread/z-score engine, signal
state machine, backtest simulator, metrics calculator) is specified in spec.md;
its Python sources (core/signal.py, core/backtester.py, core/metrics.py,
backend/main.py) are not part of the source snapshot, so those components are
modelled here directly from the specification text.  The frontend request
handler (frontend/src/App.tsx) is present in the snapshot and is embedded from
its source.

Numeric conventions of the embedding: prices, spreads, returns, P&L and the
rational metrics are modelled over ℚ; the z-score and the Sharpe ratio, whose
definitions involve a square root, are modelled over ℝ with Real.sqrt.
-/

namespace PairsML

/-- Modelled from the spec (§3 Data Model): the per-period position is an
enumerated variant over FLAT / LONG_SPREAD / SHORT_SPREAD. -/
inductive Position where
  | FLAT
  | LONG_SPREAD
  | SHORT_SPREAD
  deriving DecidableEq, Repr

/-- Modelled from the spec (§6 Output encoding): positions are encoded as
{-1, 0, 1} for SHORT_SPREAD / FLAT / LONG_SPREAD. -/
def Position.sign : Position → ℚ
  | Position.FLAT => 0
  | Position.LONG_SPREAD => 1
  | Position.SHORT_SPREAD => -1

/-- Modelled from the spec (§4.6): arithmetic mean of a sequence
(empty sequence yields 0 via division by zero in ℚ). -/
def qmean (xs : List ℚ) : ℚ := xs.sum / (xs.length : ℚ)

/-- Modelled from the spec (§4.3): rolling population variance of a window
(the spec leaves the population/sample choice open for the z-score
denominator; this embedding documents and uses the population variant). -/
def qvar (xs : List ℚ) : ℚ :=
  ((xs.map fun x => (x - qmean xs) ^ 2).sum) / (xs.length : ℚ)

/-- Modelled from the spec (§4.6): sample variance with denominator n-1
(ℕ-subtraction, so sequences of length ≤ 1 get variance 0). -/
def sampleVar (xs : List ℚ) : ℚ :=
  ((xs.map fun x => (x - qmean xs) ^ 2).sum) / ((xs.length - 1 : ℕ) : ℚ)

/-- Modelled from the spec (§4.1 Hedge Ratio Estimator): closed-form OLS slope
of Y on X, the covariance/variance ratio. -/
def olsBeta (x y : List ℚ) : ℚ :=
  (List.zipWith (fun a b => (a - qmean x) * (b - qmean y)) x y).sum
    / ((x.map fun a => (a - qmean x) ^ 2).sum)

/-- Modelled from the spec (§4.3): spread[t] = y[t] - beta*x[t] - intercept
(the with-intercept convention, applied on raw prices). -/
def spreadList (beta intercept : ℚ) (py px : List ℚ) : List ℚ :=
  List.zipWith (fun y x => y - beta * x - intercept) py px

/-- Modelled from the spec (§4.3): the trailing window of `window` periods
ending at (and including) index t. -/
def windowSlice (window t : ℕ) (s : List ℚ) : List ℚ :=
  (s.take (t + 1)).drop (t + 1 - window)

/-- Modelled from the spec (§4.3 Spread & Z-Score Engine):
zscore[t] = (spread[t] - rolling_mean[t]) / rolling_std[t]; for the first
window-1 periods the z-score is undefined and a sentinel (none) is emitted;
when the rolling variance is 0 the engine emits the sentinel and never
divides. -/
noncomputable def zscoreAt (window : ℕ) (s : List ℚ) (t : ℕ) : Option ℝ :=
  if t < window - 1 then none
  else if qvar (windowSlice window t s) = 0 then none
  else some (((s.getD t 0 - qmean (windowSlice window t s) : ℚ) : ℝ)
      / Real.sqrt ((qvar (windowSlice window t s) : ℚ) : ℝ))

/-- Modelled from the spec (§4.3): the z-score series aligned to the spread
series. -/
noncomputable def zscoreList (window : ℕ) (s : List ℚ) : List (Option ℝ) :=
  (List.range s.length).map (zscoreAt window s)

/-- Modelled from the spec (§4.4 Signal Generator): the transition table,
evaluated once per period, deterministic given
(current_state, zscore[t], entry_z, exit_z); an undefined z-score (sentinel)
forces FLAT regardless of the prior state. -/
noncomputable def transition (entry_z exit_z : ℝ) (s : Position) (z : Option ℝ) :
    Position :=
  match z with
  | none => Position.FLAT
  | some z =>
    match s with
    | Position.FLAT =>
        if z ≥ entry_z then Position.SHORT_SPREAD
        else if z ≤ -entry_z then Position.LONG_SPREAD
        else Position.FLAT
    | Position.LONG_SPREAD =>
        if z ≥ -exit_z then Position.FLAT else Position.LONG_SPREAD
    | Position.SHORT_SPREAD =>
        if z ≤ exit_z then Position.FLAT else Position.SHORT_SPREAD

/-- Modelled from the spec (§4.4): the left-to-right scan of the transition
function, carrying the current state. -/
noncomputable def positionsFrom (entry_z exit_z : ℝ) (s : Position) :
    List (Option ℝ) → List Position
  | [] => []
  | z :: zs =>
      transition entry_z exit_z s z
        :: positionsFrom entry_z exit_z (transition entry_z exit_z s z) zs

/-- Modelled from the spec (§4.4): the Signal Generator's position sequence;
the initial state is always FLAT. -/
noncomputable def signalPositions (entry_z exit_z : ℝ) (zs : List (Option ℝ)) :
    List Position :=
  positionsFrom entry_z exit_z Position.FLAT zs

/-- Modelled from the spec (§4.5): per-period simple returns,
return[t] = price[t]/price[t-1] - 1, with return[0] = 0. -/
def returnsList (ps : List ℚ) : List ℚ :=
  (List.range ps.length).map fun t =>
    if t = 0 then 0 else ps.getD t 0 / ps.getD (t - 1) 0 - 1

/-- Position held at period t (FLAT when out of range). -/
def posAt (pos : List Position) (t : ℕ) : Position :=
  pos.getD t Position.FLAT

/-- Position held as of the previous period; the state before period 0 is
FLAT. -/
def prevPos (pos : List Position) (t : ℕ) : Position :=
  if t = 0 then Position.FLAT else pos.getD (t - 1) Position.FLAT

/-- Modelled from the spec (§4.5 Backtest Simulator):
pnl[t] = raw_pnl[t] - cost[t] where
raw_pnl[t] = position_sign(t-1) * (return_y[t] - beta * return_x[t]) and the
transaction cost is the notional-based variant: a flat cost_rate per unit of
position change, cost[t] = cost_rate * |sign(position[t]) - sign(position[t-1])|. -/
def pnlList (beta cost_rate : ℚ) (py px : List ℚ) (pos : List Position) :
    List ℚ :=
  (List.range py.length).map fun t =>
    (prevPos pos t).sign
        * ((returnsList py).getD t 0 - beta * (returnsList px).getD t 0)
      - cost_rate * |(posAt pos t).sign - (prevPos pos t).sign|

/-- Modelled from the spec (§4.5): equity[t] = equity[t-1] * (1 + pnl[t]) with
initial equity 1.0. -/
def equityList (pnl : List ℚ) : List ℚ :=
  (List.scanl (fun e p => e * (1 + p)) 1 pnl).tail

/-- Modelled from the spec (§2 data flow): the position sequence produced by
the spread/z-score/signal passes from aligned prices and a given hedge-ratio
result. -/
noncomputable def corePositions (beta intercept : ℚ) (window : ℕ)
    (entry_z exit_z : ℝ) (py px : List ℚ) : List Position :=
  signalPositions entry_z exit_z
    (zscoreList window (spreadList beta intercept py px))

/-- Modelled from the spec (§2 data flow): the per-period P&L sequence of the
backtest from aligned prices and a given hedge-ratio result. -/
noncomputable def corePnl (beta intercept : ℚ) (window : ℕ)
    (entry_z exit_z : ℝ) (cost_rate : ℚ) (py px : List ℚ) : List ℚ :=
  pnlList beta cost_rate py px (corePositions beta intercept window entry_z exit_z py px)

/-- Modelled from the spec (§4.6 Metrics Calculator):
sharpe = mean(pnl) / std(pnl) * sqrt(periods_per_year), where std is the
sample standard deviation; if std(pnl) = 0 (equivalently the sample variance
is 0) the Sharpe ratio is defined to be 0 and no division is performed. -/
noncomputable def sharpe (pnl : List ℚ) (periods_per_year : ℕ) : ℝ :=
  if sampleVar pnl = 0 then 0
  else ((qmean pnl : ℚ) : ℝ) / Real.sqrt ((sampleVar pnl : ℚ) : ℝ)
      * Real.sqrt (periods_per_year : ℝ)

/-- Helper for the drawdown sequence: scans the equity list carrying the
running maximum m, emitting equity[t] / running_max[0..t] - 1 at each step. -/
def ddAux (m : ℚ) : List ℚ → List ℚ
  | [] => []
  | e :: es => (e / max m e - 1) :: ddAux (max m e) es

/-- Modelled from the spec (§4.6): the per-period drawdown sequence
equity[t] / running_max(equity[0..t]) - 1. -/
def drawdowns : List ℚ → List ℚ
  | [] => []
  | e :: es => ddAux e (e :: es)

/-- Modelled from the spec (§4.6):
max_drawdown = min over t of (equity[t] / running_max(equity[0..t]) - 1),
with convention 0 for an empty equity curve. -/
def max_drawdown (equity : List ℚ) : ℚ :=
  (drawdowns equity).foldr min 0

/-- Modelled from the spec (§4.6):
hit_rate = count(pnl[t] > 0) / count(pnl[t] ≠ 0), defined to be 0 when no
period has nonzero pnl. -/
def hit_rate (pnl : List ℚ) : ℚ :=
  if pnl.countP (fun q => decide (q ≠ 0)) = 0 then 0
  else ((pnl.countP fun q => decide (0 < q) : ℕ) : ℚ)
      / ((pnl.countP fun q => decide (q ≠ 0) : ℕ) : ℚ)

/-- Modelled from the spec (§4.6): total_return = equity[last]/equity[first] - 1. -/
def total_return (equity : List ℚ) : ℚ :=
  equity.getLast?.getD 1 / equity.head?.getD 1 - 1

/-- Modelled from the spec (§4.6): turnover = count(position[t] ≠ position[t-1]),
counting the initial entry out of the implicit FLAT state before period 0. -/
def turnoverCount (pos : List Position) : ℕ :=
  (List.range pos.length).countP fun t => decide (posAt pos t ≠ prevPos pos t)

/-- Modelled from the spec (§4.6):
estimated_capital = price_y[last] + |beta| * price_x[last], the gross notional
of one unit of spread position at the final prices. -/
def estimated_capital (beta : ℚ) (py px : List ℚ) : ℚ :=
  py.getLast?.getD 0 + |beta| * px.getLast?.getD 0

/-- Modelled from the spec (§3): the Metrics record. -/
structure Metrics where
  sharpe : ℝ
  total_return : ℚ
  max_drawdown : ℚ
  hit_rate : ℚ
  turnover : ℕ
  estimated_capital : ℚ

/-- Modelled from the spec (§3): the BacktestResult record returned by value
by the simulator. -/
structure BacktestResult where
  spread : List ℚ
  zscore : List (Option ℝ)
  position : List Position
  pnl : List ℚ
  equity : List ℚ
  metrics : Metrics
  hedge_ratio : ℚ
  intercept : ℚ

/-- Modelled from the spec (§2 data flow): a full backtest run — hedge-ratio
estimation, spread/z-score computation, signal generation, simulation and
metric reduction, each stage a pure function of its inputs. -/
noncomputable def runBacktest (window : ℕ) (entry_z exit_z : ℝ)
    (cost_rate : ℚ) (periods_per_year : ℕ) (py px : List ℚ) : BacktestResult :=
  let beta := olsBeta px py
  let intercept := qmean py - beta * qmean px
  let spread := spreadList beta intercept py px
  let zs := zscoreList window spread
  let pos := signalPositions entry_z exit_z zs
  let pnl := pnlList beta cost_rate py px pos
  let equity := equityList pnl
  { spread := spread
    zscore := zs
    position := pos
    pnl := pnl
    equity := equity
    metrics :=
      { sharpe := sharpe pnl periods_per_year
        total_return := total_return equity
        max_drawdown := max_drawdown equity
        hit_rate := hit_rate pnl
        turnover := turnoverCount pos
        estimated_capital := estimated_capital beta py px }
    hedge_ratio := beta
    intercept := intercept }

/-- Modelled from the spec (§7 Error Handling): the error kinds produced by
the core. -/
inductive BacktestError where
  | InvalidParameterError
  | InsufficientDataError
  | DegenerateInputError
  deriving DecidableEq, Repr

/-- Modelled from the spec (§6 Validation boundary and §4.4 precondition):
reject identical tickers, a ticker absent from the dataset, window < 20,
exit_z < 0 and exit_z ≥ entry_z, each with InvalidParameterError, before the
core runs. -/
def validateParams (ticker_x ticker_y : String) (available : List String)
    (window : ℕ) (entry_z exit_z : ℚ) : Except BacktestError Unit :=
  if ticker_x = ticker_y then Except.error BacktestError.InvalidParameterError
  else if ticker_x ∉ available then Except.error BacktestError.InvalidParameterError
  else if ticker_y ∉ available then Except.error BacktestError.InvalidParameterError
  else if window < 20 then Except.error BacktestError.InvalidParameterError
  else if exit_z < 0 then Except.error BacktestError.InvalidParameterError
  else if entry_z ≤ exit_z then Except.error BacktestError.InvalidParameterError
  else Except.ok ()

end PairsML

namespace Frontend

/-- Metrics interface of frontend/src/lib/api.ts (JS numbers modelled as ℚ). -/
structure Metrics where
  sharpe : ℚ
  max_drawdown : ℚ
  hit_rate : ℚ
  total_return : ℚ
  turnover : ℚ
  estimated_capital : ℚ

/-- BacktestResponse interface of frontend/src/lib/api.ts. -/
structure BacktestResponse where
  dates : List String
  price_y : List ℚ
  price_x : List ℚ
  spread : List ℚ
  zscore : List ℚ
  position : List ℚ
  pnl : List ℚ
  equity : List ℚ
  metrics : Metrics
  hedge_ratio : ℚ
  intercept : ℚ

/-- The React state relevant to handleRun in frontend/src/App.tsx:
loading, results, error. -/
structure AppState where
  loading : Bool
  results : Option BacktestResponse
  error : Option String

/-- Outcome of the api.runBacktest promise in handleRun: either a successful
BacktestResponse, or a rejection carrying the optional backend detail
(err.response?.data?.detail) and the optional error message (err.message). -/
inductive RunOutcome where
  | success (res : BacktestResponse)
  | failure (detail : Option String) (message : Option String)

/-- JavaScript's short-circuiting or on strings: an absent value and the empty
string are falsy and fall through to the right operand. -/
def jsOr (s : Option String) (dflt : String) : String :=
  match s with
  | none => dflt
  | some v => if v = "" then dflt else v

/-- First half of handleRun (App.tsx lines 68-70): setLoading(true),
setError(null). -/
def handleRunStart (s : AppState) : AppState :=
  { s with loading := true, error := none }

/-- Second half of handleRun (App.tsx lines 71-84): on success setResults(res);
on failure setError(err.response?.data?.detail || err.message ||
"Backtest failed") and keep previous results; finally setLoading(false). -/
def handleRunFinish (s : AppState) (o : RunOutcome) : AppState :=
  match o with
  | RunOutcome.success res => { s with results := some res, loading := false }
  | RunOutcome.failure detail message =>
      { s with
          error := some (jsOr detail (jsOr message "Backtest failed"))
          loading := false }

/-- The full handleRun state transition of frontend/src/App.tsx (lines 68-85)
for one invocation with a given request outcome. -/
def handleRun (s : AppState) (o : RunOutcome) : AppState :=
  handleRunFinish (handleRunStart s) o

end Frontend

namespace PairsML

/-! ### Helper lemmas -/

theorem scanl_head {α β : Type} (f : α → β → α) (b : α) (l : List β) :
    List.scanl f b l = b :: (List.scanl f b l).tail := by
  cases l <;> simp [List.scanl]

theorem positionsFrom_eq_scanl_tail (entry_z exit_z : ℝ) :
    ∀ (zs : List (Option ℝ)) (s : Position),
      positionsFrom entry_z exit_z s zs
        = (List.scanl (transition entry_z exit_z) s zs).tail
  | [], s => by simp [positionsFrom, List.scanl]
  | z :: zs, s => by
    rw [List.scanl]
    simp only [List.tail_cons, positionsFrom]
    rw [positionsFrom_eq_scanl_tail entry_z exit_z zs]
    exact (scanl_head (transition entry_z exit_z)
      (transition entry_z exit_z s z) zs).symm

theorem validateParams_cases (tx ty : String) (avail : List String)
    (window : ℕ) (entry_z exit_z : ℚ) :
    validateParams tx ty avail window entry_z exit_z
        = Except.error BacktestError.InvalidParameterError
    ∨ (tx ≠ ty ∧ ¬ window < 20 ∧ 0 ≤ exit_z ∧ exit_z < entry_z) := by
  unfold validateParams
  split
  · exact Or.inl rfl
  split
  · exact Or.inl rfl
  split
  · exact Or.inl rfl
  split
  · exact Or.inl rfl
  split
  · exact Or.inl rfl
  split
  · exact Or.inl rfl
  · rename_i h1 h2 h3 h4 h5 h6
    exact Or.inr ⟨h1, h4, le_of_not_lt h5, lt_of_not_le h6⟩

/-! ### C4 -/

/-- C4: constructing a run whose thresholds violate 0 ≤ exit_z < entry_z fails
with InvalidParameterError, and the validation boundary likewise rejects
window < 20, identical tickers, and exit_z ≥ entry_z before the core runs. -/
theorem parameter_rejection_spec (tx ty : String) (avail : List String)
    (window : ℕ) (entry_z exit_z : ℚ) :
    (¬ (0 ≤ exit_z ∧ exit_z < entry_z) →
      validateParams tx ty avail window entry_z exit_z
        = Except.error BacktestError.InvalidParameterError)
  ∧ (tx = ty →
      validateParams tx ty avail window entry_z exit_z
        = Except.error BacktestError.InvalidParameterError)
  ∧ (window < 20 →
      validateParams tx ty avail window entry_z exit_z
        = Except.error BacktestError.InvalidParameterError)
  ∧ (entry_z ≤ exit_z →
      validateParams tx ty avail window entry_z exit_z
        = Except.error BacktestError.InvalidParameterError) := by
  rcases validateParams_cases tx ty avail window entry_z exit_z with h | h
  · exact ⟨fun _ => h, fun _ => h, fun _ => h, fun _ => h⟩
  · refine ⟨fun hc => absurd ⟨h.2.2.1, h.2.2.2⟩ hc,
      fun hc => absurd hc h.1,
      fun hc => absurd hc h.2.1,
      fun hc => absurd (lt_of_lt_of_le h.2.2.2 hc) (lt_irrefl _)⟩

/-- Witness for C4 at the spec's concrete instance: entry_z = 1, exit_z = 2 is
rejected with InvalidParameterError. -/
theorem parameter_rejection_spec_witness :
    validateParams "AAA" "BBB" ["AAA", "BBB"] 60 1 2
      = Except.error BacktestError.InvalidParameterError :=
  (parameter_rejection_spec "AAA" "BBB" ["AAA", "BBB"] 60 1 2).1 (by norm_num)

/-! ### C1 -/

/-- C1: for every z-score sequence and thresholds with 0 ≤ exit_z < entry_z,
the Signal Generator's position sequence equals the left-to-right fold of the
transition table starting from FLAT; the transition table is exactly the one
of §4.4 (FLAT enters SHORT_SPREAD when z ≥ entry_z, LONG_SPREAD when
z ≤ -entry_z; LONG_SPREAD exits when z ≥ -exit_z; SHORT_SPREAD exits when
z ≤ exit_z), and an undefined z-score forces FLAT regardless of the prior
state. -/
theorem signal_fold_spec (entry_z exit_z : ℝ) (zs : List (Option ℝ))
    (h : 0 ≤ exit_z ∧ exit_z < entry_z) :
    signalPositions entry_z exit_z zs
      = (List.scanl (transition entry_z exit_z) Position.FLAT zs).tail
  ∧ (∀ s : Position, transition entry_z exit_z s none = Position.FLAT)
  ∧ (∀ z : ℝ,
      (transition entry_z exit_z Position.FLAT (some z)
        = if z ≥ entry_z then Position.SHORT_SPREAD
          else if z ≤ -entry_z then Position.LONG_SPREAD
          else Position.FLAT)
    ∧ (transition entry_z exit_z Position.LONG_SPREAD (some z)
        = if z ≥ -exit_z then Position.FLAT else Position.LONG_SPREAD)
    ∧ (transition entry_z exit_z Position.SHORT_SPREAD (some z)
        = if z ≤ exit_z then Position.FLAT else Position.SHORT_SPREAD)) :=
  ⟨positionsFrom_eq_scanl_tail entry_z exit_z zs Position.FLAT,
    fun s => by cases s <;> rfl,
    fun z => ⟨rfl, rfl, rfl⟩⟩

/-- Witness for C1 at entry_z = 1, exit_z = 0 and a small concrete z-score
sequence with a defined and an undefined period. -/
theorem signal_fold_spec_witness :
    ((0:ℝ) ≤ 0 ∧ (0:ℝ) < 1)
  ∧ signalPositions 1 0 [some 2, none]
      = (List.scanl (transition 1 0) Position.FLAT [some 2, none]).tail :=
  ⟨⟨le_refl 0, by norm_num⟩, (signal_fold_spec 1 0 [some 2, none] ⟨le_refl 0, by norm_num⟩).1⟩

/-! ### C6 -/

/-- C6: the Sharpe ratio equals mean(pnl) / std(pnl) * sqrt(periods_per_year)
with std the sample standard deviation, and when std(pnl) = 0 the result is
defined to be 0, so no division by zero ever occurs. -/
theorem sharpe_spec (pnl : List ℚ) (ppy : ℕ) :
    (Real.sqrt ((sampleVar pnl : ℚ) : ℝ) = 0 → sharpe pnl ppy = 0)
  ∧ (Real.sqrt ((sampleVar pnl : ℚ) : ℝ) ≠ 0 →
      sharpe pnl ppy
        = ((qmean pnl : ℚ) : ℝ) / Real.sqrt ((sampleVar pnl : ℚ) : ℝ)
            * Real.sqrt (ppy : ℝ)) := by
  have hv : 0 ≤ sampleVar pnl := by
    unfold sampleVar
    apply div_nonneg
    · apply List.sum_nonneg
      intro x hx
      obtain ⟨y, -, rfl⟩ := List.mem_map.1 hx
      positivity
    · positivity
  constructor
  · intro h
    have h2 : ((sampleVar pnl : ℚ) : ℝ) ≤ 0 := Real.sqrt_eq_zero'.1 h
    have h3 : sampleVar pnl = 0 := le_antisymm (by exact_mod_cast h2) hv
    unfold sharpe
    rw [if_pos h3]
  · intro h
    have h3 : sampleVar pnl ≠ 0 := by
      intro h0
      apply h
      rw [h0]
      push_cast
      exact Real.sqrt_zero
    unfold sharpe
    rw [if_neg h3]

/-- Witness for C6: an all-zero pnl series has zero sample deviation and
Sharpe ratio 0. -/
theorem sharpe_spec_witness :
    Real.sqrt ((sampleVar [(0:ℚ), 0] : ℚ) : ℝ) = 0 ∧ sharpe [(0:ℚ), 0] 252 = 0 := by
  have h : Real.sqrt ((sampleVar [(0:ℚ), 0] : ℚ) : ℝ) = 0 := by
    have hv : sampleVar [(0:ℚ), 0] = 0 := by
      simp [sampleVar, qmean]
    rw [hv]
    push_cast
    exact Real.sqrt_zero
  exact ⟨h, (sharpe_spec [(0:ℚ), 0] 252).1 h⟩

/-! ### C8 -/

/-- C8: hit_rate equals count(pnl[t] > 0) / count(pnl[t] ≠ 0); it is 0 when no
period has nonzero pnl, and it always lies in [0, 1]. -/
theorem hit_rate_spec (pnl : List ℚ) :
    0 ≤ hit_rate pnl ∧ hit_rate pnl ≤ 1
  ∧ (pnl.countP (fun q => decide (q ≠ 0)) = 0 → hit_rate pnl = 0)
  ∧ (pnl.countP (fun q => decide (q ≠ 0)) ≠ 0 →
      hit_rate pnl
        = ((pnl.countP fun q => decide (0 < q) : ℕ) : ℚ)
            / ((pnl.countP fun q => decide (q ≠ 0) : ℕ) : ℚ)) := by
  unfold hit_rate
  by_cases h : pnl.countP (fun q => decide (q ≠ 0)) = 0
  · rw [if_pos h]
    exact ⟨le_refl 0, by norm_num, fun _ => rfl, fun hc => absurd h hc⟩
  · rw [if_neg h]
    have hpos : (0:ℚ) < ((pnl.countP fun q => decide (q ≠ 0) : ℕ) : ℚ) := by
      exact_mod_cast Nat.pos_of_ne_zero h
    have hle : pnl.countP (fun q => decide (0 < q))
        ≤ pnl.countP (fun q => decide (q ≠ 0)) := by
      apply List.countP_mono_left
      intro x _ hx
      simp only [decide_eq_true_eq] at hx ⊢
      exact hx.ne'
    refine ⟨div_nonneg (by positivity) (le_of_lt hpos), ?_, fun hc => absurd hc h,
      fun _ => rfl⟩
    rw [div_le_one hpos]
    exact_mod_cast hle

/-- Witness for C8 at a concrete pnl series with one win, one loss and one
flat period. -/
theorem hit_rate_spec_witness : hit_rate [(1:ℚ), -1, 0] = 1 / 2 := by
  have h := (hit_rate_spec [(1:ℚ), -1, 0]).2.2.2 (by decide)
  rw [h]
  norm_num

/-! ### C9 -/

/-- C9: the reported estimated_capital of a backtest run equals
price_y[last] + |beta| * price_x[last] with beta the run's OLS hedge ratio. -/
theorem estimated_capital_spec (window : ℕ) (entry_z exit_z : ℝ)
    (cost_rate : ℚ) (ppy : ℕ) (py px : List ℚ) :
    (runBacktest window entry_z exit_z cost_rate ppy py px).metrics.estimated_capital
      = py.getLast?.getD 0 + |olsBeta px py| * px.getLast?.getD 0 := rfl

/-! ### C10 -/

/-- C10: every invocation of handleRun resets loading to false on both paths;
on a rejected request the results state is left unchanged and only error is
set (to the backend detail, else the error message, else "Backtest failed");
results is assigned only when the request resolves successfully (and error is
then cleared). -/
theorem handleRun_spec (s : Frontend.AppState) (o : Frontend.RunOutcome) :
    (Frontend.handleRun s o).loading = false
  ∧ (∀ res, o = Frontend.RunOutcome.success res →
      (Frontend.handleRun s o).results = some res
    ∧ (Frontend.handleRun s o).error = none)
  ∧ (∀ detail message, o = Frontend.RunOutcome.failure detail message →
      (Frontend.handleRun s o).results = s.results
    ∧ (Frontend.handleRun s o).error
        = some (Frontend.jsOr detail (Frontend.jsOr message "Backtest failed"))) := by
  cases o <;>
    simp [Frontend.handleRun, Frontend.handleRunStart, Frontend.handleRunFinish]

/-- Witness for C10: a failed request with a backend detail keeps the previous
results (none here) and surfaces the detail message. -/
theorem handleRun_spec_witness :
    (Frontend.handleRun ⟨false, none, none⟩
        (Frontend.RunOutcome.failure (some "boom") none)).results = none
  ∧ (Frontend.handleRun ⟨false, none, none⟩
        (Frontend.RunOutcome.failure (some "boom") none)).error = some "boom" := by
  have h := (handleRun_spec ⟨false, none, none⟩
      (Frontend.RunOutcome.failure (some "boom") none)).2.2 (some "boom") none rfl
  refine ⟨h.1, ?_⟩
  rw [h.2]
  rfl

end PairsML

namespace PairsML

/-! ### Helper lemmas for the pipeline passes -/

theorem transition_none (entry_z exit_z : ℝ) (s : Position) :
    transition entry_z exit_z s none = Position.FLAT := by
  cases s <;> rfl

theorem spreadList_length (beta intercept : ℚ) (py px : List ℚ) :
    (spreadList beta intercept py px).length = min py.length px.length := by
  simp [spreadList]

theorem zscoreList_getElem? (window : ℕ) (s : List ℚ) (u : ℕ) (h : u < s.length) :
    (zscoreList window s)[u]? = some (zscoreAt window s u) := by
  simp [zscoreList, List.getElem?_range h]

theorem positionsFrom_getElem?_none (entry_z exit_z : ℝ) :
    ∀ (zs : List (Option ℝ)) (s : Position) (t : ℕ),
      zs[t]? = some none →
      (positionsFrom entry_z exit_z s zs)[t]? = some Position.FLAT
  | [], _, t, h => by simp at h
  | z :: zs, s, 0, h => by
    simp only [List.getElem?_cons_zero, Option.some.injEq] at h
    subst h
    simp only [positionsFrom, transition_none, List.getElem?_cons_zero]
  | z :: zs, s, t + 1, h => by
    simp only [List.getElem?_cons_succ] at h
    simp only [positionsFrom, List.getElem?_cons_succ]
    exact positionsFrom_getElem?_none entry_z exit_z zs _ t h

theorem pnlList_getElem? (beta cost_rate : ℚ) (py px : List ℚ)
    (pos : List Position) (t : ℕ) (h : t < py.length) :
    (pnlList beta cost_rate py px pos)[t]?
      = some ((prevPos pos t).sign
            * ((returnsList py).getD t 0 - beta * (returnsList px).getD t 0)
          - cost_rate * |(posAt pos t).sign - (prevPos pos t).sign|) := by
  simp [pnlList, List.getElem?_range h]

/-! ### C3 -/

/-- C3: warm-up invariant — for every period t < window-1 the z-score is the
sentinel (undefined), the emitted position is FLAT and the pnl is 0. -/
theorem warmup_invariant_spec (beta intercept : ℚ) (window : ℕ)
    (entry_z exit_z : ℝ) (cost_rate : ℚ) (py px : List ℚ)
    (hl : px.length = py.length) (t : ℕ) (ht : t < window - 1)
    (htl : t < py.length) :
    (zscoreList window (spreadList beta intercept py px))[t]? = some none
  ∧ (corePositions beta intercept window entry_z exit_z py px)[t]?
      = some Position.FLAT
  ∧ (corePnl beta intercept window entry_z exit_z cost_rate py px)[t]?
      = some 0 := by
  have hsl : (spreadList beta intercept py px).length = py.length := by
    rw [spreadList_length, hl, min_self]
  have hz : ∀ u, u < window - 1 → u < py.length →
      (zscoreList window (spreadList beta intercept py px))[u]? = some none := by
    intro u hu hul
    rw [zscoreList_getElem? window _ u (by rw [hsl]; exact hul)]
    unfold zscoreAt
    rw [if_pos hu]
  have hp : ∀ u, u < window - 1 → u < py.length →
      (corePositions beta intercept window entry_z exit_z py px)[u]?
        = some Position.FLAT := by
    intro u hu hul
    exact positionsFrom_getElem?_none entry_z exit_z _ _ u (hz u hu hul)
  refine ⟨hz t ht htl, hp t ht htl, ?_⟩
  have hposT : posAt (corePositions beta intercept window entry_z exit_z py px) t
      = Position.FLAT := by
    unfold posAt
    rw [List.getD_eq_getElem?_getD, hp t ht htl]
    rfl
  have hprevT : prevPos (corePositions beta intercept window entry_z exit_z py px) t
      = Position.FLAT := by
    unfold prevPos
    by_cases h0 : t = 0
    · rw [if_pos h0]
    · rw [if_neg h0, List.getD_eq_getElem?_getD,
        hp (t - 1) (lt_of_le_of_lt (Nat.sub_le t 1) ht)
          (lt_of_le_of_lt (Nat.sub_le t 1) htl)]
      rfl
  unfold corePnl
  rw [pnlList_getElem? beta cost_rate py px _ t htl, hposT, hprevT]
  simp [Position.sign]

/-- Witness for C3 at window = 3, t = 1 on a concrete aligned price pair. -/
theorem warmup_invariant_spec_witness :
    (corePositions 1 0 3 1 0 [(1:ℚ), 2, 3] [(1:ℚ), 1, 1])[1]? = some Position.FLAT
  ∧ (corePnl 1 0 3 1 0 0 [(1:ℚ), 2, 3] [(1:ℚ), 1, 1])[1]? = some 0 := by
  have h := warmup_invariant_spec 1 0 3 1 0 0 [(1:ℚ), 2, 3] [(1:ℚ), 1, 1]
    rfl 1 (by norm_num) (by norm_num)
  exact ⟨h.2.1, h.2.2⟩

/-! ### C5 -/

theorem mem_windowSlice {window t : ℕ} {s : List ℚ} {q : ℚ}
    (h : q ∈ windowSlice window t s) : q ∈ s :=
  List.mem_of_mem_take (List.mem_of_mem_drop h)

theorem qmean_of_zeros {s : List ℚ} (h : ∀ q ∈ s, q = 0) : qmean s = 0 := by
  unfold qmean
  rw [List.sum_eq_zero h, zero_div]

theorem qvar_of_zeros {s : List ℚ} (h : ∀ q ∈ s, q = 0) : qvar s = 0 := by
  unfold qvar
  rw [List.sum_eq_zero, zero_div]
  intro y hy
  obtain ⟨x, hx, rfl⟩ := List.mem_map.1 hy
  rw [h x hx, qmean_of_zeros h]
  norm_num

theorem sampleVar_of_zeros {s : List ℚ} (h : ∀ q ∈ s, q = 0) : sampleVar s = 0 := by
  unfold sampleVar
  rw [List.sum_eq_zero, zero_div]
  intro y hy
  obtain ⟨x, hx, rfl⟩ := List.mem_map.1 hy
  rw [h x hx, qmean_of_zeros h]
  norm_num

theorem zscoreAt_of_zeros {window : ℕ} {s : List ℚ} (h : ∀ q ∈ s, q = 0) (t : ℕ) :
    zscoreAt window s t = none := by
  unfold zscoreAt
  by_cases hw : t < window - 1
  · rw [if_pos hw]
  · rw [if_neg hw, if_pos (qvar_of_zeros fun q hq => h q (mem_windowSlice hq))]

theorem positionsFrom_of_none (entry_z exit_z : ℝ) :
    ∀ (zs : List (Option ℝ)) (s : Position), (∀ z ∈ zs, z = none) →
      ∀ p ∈ positionsFrom entry_z exit_z s zs, p = Position.FLAT
  | [], _, _, p, hp => by simp [positionsFrom] at hp
  | z :: zs, s, h, p, hp => by
    have hz : z = none := h z (List.mem_cons_self z zs)
    subst hz
    simp only [positionsFrom, transition_none, List.mem_cons] at hp
    rcases hp with hp | hp
    · exact hp
    · exact positionsFrom_of_none entry_z exit_z zs Position.FLAT
        (fun w hw => h w (List.mem_cons_of_mem none hw)) p hp

/-- C5: zero rolling-std safety — whenever the rolling variance of the
in-window spread is 0 the engine emits the sentinel without dividing; in the
fully constant-spread scenario (Y perfectly co-moves with X) every z-score is
the sentinel, the position stays FLAT throughout, every pnl is 0 and
sharpe = 0. -/
theorem constant_spread_safety_spec (beta intercept : ℚ) (window : ℕ)
    (entry_z exit_z : ℝ) (cost_rate : ℚ) (ppy : ℕ) (px py : List ℚ)
    (hconst : py = px.map fun v => beta * v + intercept) :
    (∀ (s : List ℚ) (t : ℕ), qvar (windowSlice window t s) = 0 →
      zscoreAt window s t = none)
  ∧ (∀ z ∈ zscoreList window (spreadList beta intercept py px), z = none)
  ∧ (∀ p ∈ corePositions beta intercept window entry_z exit_z py px,
      p = Position.FLAT)
  ∧ (∀ q ∈ corePnl beta intercept window entry_z exit_z cost_rate py px, q = 0)
  ∧ sharpe (corePnl beta intercept window entry_z exit_z cost_rate py px) ppy
      = 0 := by
  have hpolicy : ∀ (s : List ℚ) (t : ℕ), qvar (windowSlice window t s) = 0 →
      zscoreAt window s t = none := by
    intro s t hv
    unfold zscoreAt
    by_cases hw : t < window - 1
    · rw [if_pos hw]
    · rw [if_neg hw, if_pos hv]
  have hspread : ∀ q ∈ spreadList beta intercept py px, q = 0 := by
    intro q hq
    subst hconst
    unfold spreadList at hq
    rw [List.zipWith_map_left, List.zipWith_same] at hq
    obtain ⟨x, hx, rfl⟩ := List.mem_map.1 hq
    ring
  have hzs : ∀ z ∈ zscoreList window (spreadList beta intercept py px),
      z = none := by
    intro z hz
    obtain ⟨u, hu, rfl⟩ := List.mem_map.1 hz
    exact zscoreAt_of_zeros hspread u
  have hpos : ∀ p ∈ corePositions beta intercept window entry_z exit_z py px,
      p = Position.FLAT :=
    positionsFrom_of_none entry_z exit_z _ Position.FLAT hzs
  have hgetD : ∀ t : ℕ,
      (corePositions beta intercept window entry_z exit_z py px).getD t
        Position.FLAT = Position.FLAT := by
    intro t
    rw [List.getD_eq_getElem?_getD]
    cases hcase : (corePositions beta intercept window entry_z exit_z py px)[t]? with
    | none => rfl
    | some p =>
        have hpf : p = Position.FLAT := hpos p (List.getElem?_mem hcase)
        rw [hpf]
        rfl
  have hpnl : ∀ q ∈ corePnl beta intercept window entry_z exit_z cost_rate py px,
      q = 0 := by
    intro q hq
    unfold corePnl pnlList at hq
    obtain ⟨t, ht, rfl⟩ := List.mem_map.1 hq
    have h1 : prevPos (corePositions beta intercept window entry_z exit_z py px) t
        = Position.FLAT := by
      unfold prevPos
      by_cases h0 : t = 0
      · rw [if_pos h0]
      · rw [if_neg h0]
        exact hgetD (t - 1)
    have h2 : posAt (corePositions beta intercept window entry_z exit_z py px) t
        = Position.FLAT := hgetD t
    rw [h1, h2]
    simp [Position.sign]
  refine ⟨hpolicy, hzs, hpos, hpnl, ?_⟩
  unfold sharpe
  rw [if_pos (sampleVar_of_zeros hpnl)]

/-- Witness for C5 on a concrete perfectly co-moving pair (beta = 2,
intercept = 1). -/
theorem constant_spread_safety_spec_witness :
    ([(3:ℚ), 5] = ([(1:ℚ), 2].map fun v => 2 * v + 1))
  ∧ sharpe (corePnl 2 1 2 1 0 0 [(3:ℚ), 5] [(1:ℚ), 2]) 252 = 0 := by
  have hc : ([(3:ℚ), 5] = ([(1:ℚ), 2].map fun v => 2 * v + 1)) := by
    norm_num
  exact ⟨hc,
    (constant_spread_safety_spec 2 1 2 1 0 0 252 [(1:ℚ), 2] [(3:ℚ), 5] hc).2.2.2.2⟩

end PairsML

namespace PairsML

/-! ### Helper lemmas for drawdowns -/

theorem ddAux_nonpos : ∀ (es : List ℚ) (m : ℚ), 0 < m →
    ∀ d ∈ ddAux m es, d ≤ 0
  | [], _, _, d, hd => by simp [ddAux] at hd
  | e :: es, m, hm, d, hd => by
    have hmax : 0 < max m e := lt_max_iff.2 (Or.inl hm)
    simp only [ddAux, List.mem_cons] at hd
    rcases hd with hd | hd
    · subst hd
      have h1 : e / max m e ≤ 1 := (div_le_one hmax).2 (le_max_right m e)
      linarith
    · exact ddAux_nonpos es (max m e) hmax d hd

theorem foldr_min_nonpos : ∀ l : List ℚ, l.foldr min 0 ≤ 0
  | [] => le_refl 0
  | x :: l => by
    rw [List.foldr_cons]
    exact le_trans (min_le_right x _) (foldr_min_nonpos l)

theorem foldr_min_le : ∀ (l : List ℚ), ∀ x ∈ l, l.foldr min 0 ≤ x
  | [], x, hx => by simp at hx
  | y :: l, x, hx => by
    rw [List.foldr_cons]
    rcases List.mem_cons.1 hx with h | h
    · subst h
      exact min_le_left _ _
    · exact le_trans (min_le_right _ _) (foldr_min_le l x h)

theorem foldr_min_eq_zero_iff : ∀ l : List ℚ, (l.foldr min 0 = 0 ↔ ∀ x ∈ l, 0 ≤ x)
  | [] => by simp
  | x :: l => by
    rw [List.foldr_cons]
    simp only [List.mem_cons]
    constructor
    · intro h
      have hx : 0 ≤ x := by
        rw [← h]
        exact min_le_left x _
      have hr0 : l.foldr min 0 = 0 := by
        refine le_antisymm (foldr_min_nonpos l) ?_
        calc (0:ℚ) = min x (l.foldr min 0) := h.symm
          _ ≤ l.foldr min 0 := min_le_right x _
      intro y hy
      rcases hy with hy | hy
      · subst hy; exact hx
      · exact (foldr_min_eq_zero_iff l).1 hr0 y hy
    · intro h
      have hx : 0 ≤ x := h x (Or.inl rfl)
      have hr0 : l.foldr min 0 = 0 :=
        (foldr_min_eq_zero_iff l).2 fun y hy => h y (Or.inr hy)
      rw [hr0]
      exact min_eq_right hx

theorem foldr_min_mem : ∀ l : List ℚ, l ≠ [] → (∀ x ∈ l, x ≤ 0) →
    l.foldr min 0 ∈ l
  | [], h, _ => absurd rfl h
  | x :: l, _, hle => by
    rw [List.foldr_cons]
    rcases eq_or_ne l [] with rfl | hl
    · rw [List.foldr_nil, min_eq_left (hle x (List.mem_cons_self x []))]
      exact List.mem_cons_self x []
    · rcases le_total x (l.foldr min 0) with h | h
      · rw [min_eq_left h]
        exact List.mem_cons_self x l
      · rw [min_eq_right h]
        exact List.mem_cons_of_mem x
          (foldr_min_mem l hl fun y hy => hle y (List.mem_cons_of_mem x hy))

theorem ddAux_nonneg_iff : ∀ (es : List ℚ) (m : ℚ), 0 < m →
    ((∀ d ∈ ddAux m es, 0 ≤ d) ↔ List.Chain (· ≤ ·) m es)
  | [], m, _ => by
    constructor
    · intro _
      exact List.Chain.nil
    · intro _ d hd
      simp [ddAux] at hd
  | e :: es, m, hm => by
    have hmax : 0 < max m e := lt_max_iff.2 (Or.inl hm)
    constructor
    · intro h
      have h0 : 0 ≤ e / max m e - 1 := h _ (List.mem_cons_self _ _)
      have hme : max m e ≤ e := by
        have h1 : (1:ℚ) ≤ e / max m e := by linarith
        exact (one_le_div hmax).1 h1
      have hmle : m ≤ e := le_trans (le_max_left m e) hme
      have hmax_eq : max m e = e := max_eq_right hmle
      refine List.Chain.cons hmle ?_
      have htail := (ddAux_nonneg_iff es (max m e) hmax).1
        (fun d hd => h d (List.mem_cons_of_mem _ hd))
      rwa [hmax_eq] at htail
    · intro hch
      cases hch with
      | cons hme hch2 =>
        have hmax_eq : max m e = e := max_eq_right hme
        have he : 0 < e := lt_of_lt_of_le hm hme
        intro d hd
        simp only [ddAux, List.mem_cons] at hd
        rcases hd with hd | hd
        · subst hd
          rw [hmax_eq, div_self (ne_of_gt he)]
          norm_num
        · rw [hmax_eq] at hd
          exact (ddAux_nonneg_iff es e he).2 hch2 d hd

/-! ### C7 -/

/-- C7: max_drawdown is the minimum over t of
equity[t] / running_max(equity[0..t]) - 1; it is always ≤ 0, and (for an
equity curve starting positive, as equity[0] = 1 by convention) it equals 0
iff the equity sequence is non-decreasing throughout. The minimum is attained:
max_drawdown is an element of the drawdown sequence and a lower bound of it. -/
theorem max_drawdown_spec (e : ℚ) (es : List ℚ) (he : 0 < e) :
    max_drawdown (e :: es) ≤ 0
  ∧ (max_drawdown (e :: es) = 0 ↔ List.Chain' (· ≤ ·) (e :: es))
  ∧ max_drawdown (e :: es) ∈ drawdowns (e :: es)
  ∧ (∀ d ∈ drawdowns (e :: es), max_drawdown (e :: es) ≤ d) := by
  have hdd0 : drawdowns (e :: es) = 0 :: ddAux e es := by
    show ddAux e (e :: es) = 0 :: ddAux e es
    simp only [ddAux, max_self, div_self (ne_of_gt he)]
    norm_num
  have hle : ∀ d ∈ drawdowns (e :: es), d ≤ 0 := by
    rw [hdd0]
    intro d hd
    rcases List.mem_cons.1 hd with hd | hd
    · subst hd
      exact le_refl 0
    · exact ddAux_nonpos es e he d hd
  refine ⟨foldr_min_nonpos _, ?_, ?_, fun d hd => foldr_min_le _ d hd⟩
  · unfold max_drawdown
    rw [foldr_min_eq_zero_iff, hdd0]
    constructor
    · intro h
      exact (ddAux_nonneg_iff es e he).1
        fun d hd => h d (List.mem_cons_of_mem 0 hd)
    · intro hch d hd
      rcases List.mem_cons.1 hd with hd | hd
      · subst hd
        exact le_refl 0
      · exact (ddAux_nonneg_iff es e he).2 hch d hd
  · exact foldr_min_mem _ (by rw [hdd0]; simp) hle

/-- Witness for C7 on a concrete equity curve with a drawdown. -/
theorem max_drawdown_spec_witness :
    (0:ℚ) < 1 ∧ max_drawdown [(1:ℚ), 2, 1] ≤ 0 :=
  ⟨by norm_num, (max_drawdown_spec 1 [2, 1] (by norm_num)).1⟩

end PairsML

namespace PairsML

/-! ### Helper lemmas for no-look-ahead -/

theorem getElem?_eq_of_take_eq {α : Type} {l1 l2 : List α} {n u : ℕ}
    (h : l1.take n = l2.take n) (hu : u < n) : l1[u]? = l2[u]? := by
  rw [← List.getElem?_take_of_lt (l := l1) hu, h, List.getElem?_take_of_lt hu]

theorem getD_eq_of_take_eq {α : Type} {l1 l2 : List α} {n u : ℕ} (d : α)
    (h : l1.take n = l2.take n) (hu : u < n) : l1.getD u d = l2.getD u d := by
  rw [List.getD_eq_getElem?_getD, List.getD_eq_getElem?_getD,
    getElem?_eq_of_take_eq h hu]

theorem spreadList_take (beta intercept : ℚ) (py px : List ℚ) (n : ℕ) :
    (spreadList beta intercept py px).take n
      = spreadList beta intercept (py.take n) (px.take n) := by
  unfold spreadList
  rw [List.take_zipWith]

theorem zscoreList_length (window : ℕ) (s : List ℚ) :
    (zscoreList window s).length = s.length := by
  simp [zscoreList]

theorem zscoreAt_congr (window : ℕ) {s1 s2 : List ℚ} {n u : ℕ}
    (h : s1.take n = s2.take n) (hu : u < n) :
    zscoreAt window s1 u = zscoreAt window s2 u := by
  have ht : s1.take (u + 1) = s2.take (u + 1) := by
    have h1 : (s1.take n).take (u + 1) = (s2.take n).take (u + 1) := by rw [h]
    rwa [List.take_take, List.take_take, min_eq_left (Nat.succ_le_of_lt hu)] at h1
  have hslice : windowSlice window u s1 = windowSlice window u s2 := by
    unfold windowSlice
    rw [ht]
  have hd : s1.getD u 0 = s2.getD u 0 := getD_eq_of_take_eq 0 h hu
  unfold zscoreAt
  rw [hslice, hd]

theorem zscoreList_take_congr (window : ℕ) {s1 s2 : List ℚ} {n : ℕ}
    (hlen : s1.length = s2.length) (h : s1.take n = s2.take n) :
    (zscoreList window s1).take n = (zscoreList window s2).take n := by
  apply List.ext_getElem?
  intro u
  by_cases hu : u < n
  · rw [List.getElem?_take_of_lt hu, List.getElem?_take_of_lt hu]
    by_cases hl : u < s1.length
    · rw [zscoreList_getElem? _ _ _ hl, zscoreList_getElem? _ _ _ (hlen ▸ hl),
        zscoreAt_congr window h hu]
    · rw [List.getElem?_eq_none, List.getElem?_eq_none]
      · rw [zscoreList_length, ← hlen]
        exact le_of_not_lt hl
      · rw [zscoreList_length]
        exact le_of_not_lt hl
  · rw [List.getElem?_eq_none, List.getElem?_eq_none]
    · exact le_trans (List.length_take_le _ _) (le_of_not_lt hu)
    · exact le_trans (List.length_take_le _ _) (le_of_not_lt hu)

theorem positionsFrom_take (entry_z exit_z : ℝ) :
    ∀ (zs : List (Option ℝ)) (s : Position) (n : ℕ),
      (positionsFrom entry_z exit_z s zs).take n
        = positionsFrom entry_z exit_z s (zs.take n)
  | [], _, n => by simp [positionsFrom]
  | _ :: _, _, 0 => by simp [positionsFrom]
  | z :: zs, s, n + 1 => by
    simp only [positionsFrom, List.take_succ_cons]
    rw [positionsFrom_take entry_z exit_z zs _ n]

theorem returnsList_length (ps : List ℚ) : (returnsList ps).length = ps.length := by
  simp [returnsList]

theorem returnsList_getElem? (ps : List ℚ) (t : ℕ) (h : t < ps.length) :
    (returnsList ps)[t]?
      = some (if t = 0 then 0 else ps.getD t 0 / ps.getD (t - 1) 0 - 1) := by
  simp [returnsList, List.getElem?_range h]

theorem returnsList_getD_congr {py1 py2 : List ℚ} {t u : ℕ}
    (hlen : py1.length = py2.length) (h : py1.take t = py2.take t) (hu : u < t) :
    (returnsList py1).getD u 0 = (returnsList py2).getD u 0 := by
  rw [List.getD_eq_getElem?_getD, List.getD_eq_getElem?_getD]
  by_cases hl : u < py1.length
  · rw [returnsList_getElem? py1 u hl, returnsList_getElem? py2 u (hlen ▸ hl)]
    by_cases h0 : u = 0
    · simp [h0]
    · simp only [if_neg h0]
      rw [getD_eq_of_take_eq 0 h hu,
        getD_eq_of_take_eq 0 h (lt_of_le_of_lt (Nat.sub_le u 1) hu)]
  · rw [List.getElem?_eq_none, List.getElem?_eq_none]
    · rw [returnsList_length, ← hlen]
      exact le_of_not_lt hl
    · rw [returnsList_length]
      exact le_of_not_lt hl

theorem pnlList_length (beta cost_rate : ℚ) (py px : List ℚ)
    (pos : List Position) : (pnlList beta cost_rate py px pos).length = py.length := by
  simp [pnlList]

theorem corePositions_getElem?_congr (beta intercept : ℚ) (window : ℕ)
    (entry_z exit_z : ℝ) {py1 px1 py2 px2 : List ℚ} {t : ℕ}
    (hly : py1.length = py2.length) (hlx : px1.length = px2.length)
    (hy : py1.take t = py2.take t) (hx : px1.take t = px2.take t)
    {u : ℕ} (hu : u < t) :
    (corePositions beta intercept window entry_z exit_z py1 px1)[u]?
      = (corePositions beta intercept window entry_z exit_z py2 px2)[u]? := by
  have hslen : (spreadList beta intercept py1 px1).length
      = (spreadList beta intercept py2 px2).length := by
    rw [spreadList_length, spreadList_length, hly, hlx]
  have hstake : (spreadList beta intercept py1 px1).take t
      = (spreadList beta intercept py2 px2).take t := by
    rw [spreadList_take, spreadList_take, hy, hx]
  have hztake := zscoreList_take_congr window hslen hstake
  unfold corePositions signalPositions
  calc (positionsFrom entry_z exit_z Position.FLAT
          (zscoreList window (spreadList beta intercept py1 px1)))[u]?
      = ((positionsFrom entry_z exit_z Position.FLAT
          (zscoreList window (spreadList beta intercept py1 px1))).take t)[u]? :=
        (List.getElem?_take_of_lt hu).symm
    _ = (positionsFrom entry_z exit_z Position.FLAT
          ((zscoreList window (spreadList beta intercept py1 px1)).take t))[u]? := by
        rw [positionsFrom_take]
    _ = (positionsFrom entry_z exit_z Position.FLAT
          ((zscoreList window (spreadList beta intercept py2 px2)).take t))[u]? := by
        rw [hztake]
    _ = ((positionsFrom entry_z exit_z Position.FLAT
          (zscoreList window (spreadList beta intercept py2 px2))).take t)[u]? := by
        rw [positionsFrom_take]
    _ = (positionsFrom entry_z exit_z Position.FLAT
          (zscoreList window (spreadList beta intercept py2 px2)))[u]? :=
        List.getElem?_take_of_lt hu

/-! ### C2 -/

/-- C2: no-look-ahead — for input price series that agree on all periods
strictly before t (with the hedge-ratio result, window, thresholds and cost
rate fixed inputs of the passes, per the §4.3-§4.5 contracts), the backtest
produces identical position[u] and pnl[u] for every u < t; and the per-period
P&L obeys pnl[u] = position_sign(u-1) * (return_y[u] - beta * return_x[u])
minus the position-change cost, so the position held as of period u-1 earns
period u's relative return. -/
theorem no_look_ahead_spec (beta intercept : ℚ) (window : ℕ)
    (entry_z exit_z : ℝ) (cost_rate : ℚ) (py1 px1 py2 px2 : List ℚ) (t : ℕ)
    (hly : py1.length = py2.length) (hlx : px1.length = px2.length)
    (hy : py1.take t = py2.take t) (hx : px1.take t = px2.take t) :
    (∀ u < t,
       (corePositions beta intercept window entry_z exit_z py1 px1)[u]?
         = (corePositions beta intercept window entry_z exit_z py2 px2)[u]?
     ∧ (corePnl beta intercept window entry_z exit_z cost_rate py1 px1)[u]?
         = (corePnl beta intercept window entry_z exit_z cost_rate py2 px2)[u]?)
  ∧ (∀ u < py1.length,
       (corePnl beta intercept window entry_z exit_z cost_rate py1 px1)[u]?
         = some ((prevPos (corePositions beta intercept window entry_z exit_z py1 px1) u).sign
             * ((returnsList py1).getD u 0 - beta * (returnsList px1).getD u 0)
           - cost_rate
             * |(posAt (corePositions beta intercept window entry_z exit_z py1 px1) u).sign
                 - (prevPos (corePositions beta intercept window entry_z exit_z py1 px1) u).sign|)) := by
  have hposEq : ∀ u, u < t →
      (corePositions beta intercept window entry_z exit_z py1 px1)[u]?
        = (corePositions beta intercept window entry_z exit_z py2 px2)[u]? :=
    fun u hu => corePositions_getElem?_congr beta intercept window entry_z exit_z
      hly hlx hy hx hu
  have hposD : ∀ u, u < t →
      posAt (corePositions beta intercept window entry_z exit_z py1 px1) u
        = posAt (corePositions beta intercept window entry_z exit_z py2 px2) u := by
    intro u hu
    unfold posAt
    rw [List.getD_eq_getElem?_getD, List.getD_eq_getElem?_getD, hposEq u hu]
  have hprevD : ∀ u, u < t →
      prevPos (corePositions beta intercept window entry_z exit_z py1 px1) u
        = prevPos (corePositions beta intercept window entry_z exit_z py2 px2) u := by
    intro u hu
    unfold prevPos
    by_cases h0 : u = 0
    · rw [if_pos h0, if_pos h0]
    · rw [if_neg h0, if_neg h0, List.getD_eq_getElem?_getD,
        List.getD_eq_getElem?_getD, hposEq (u - 1) (lt_of_le_of_lt (Nat.sub_le u 1) hu)]
  have hpnlEq : ∀ u, u < t →
      (corePnl beta intercept window entry_z exit_z cost_rate py1 px1)[u]?
        = (corePnl beta intercept window entry_z exit_z cost_rate py2 px2)[u]? := by
    intro u hu
    unfold corePnl
    by_cases hl : u < py1.length
    · rw [pnlList_getElem? beta cost_rate py1 px1 _ u hl,
        pnlList_getElem? beta cost_rate py2 px2 _ u (hly ▸ hl),
        hposD u hu, hprevD u hu, returnsList_getD_congr hly hy hu,
        returnsList_getD_congr hlx hx hu]
    · rw [List.getElem?_eq_none, List.getElem?_eq_none]
      · rw [pnlList_length, ← hly]
        exact le_of_not_lt hl
      · rw [pnlList_length]
        exact le_of_not_lt hl
  refine ⟨fun u hu => ⟨hposEq u hu, hpnlEq u hu⟩, fun u hu => ?_⟩
  unfold corePnl
  exact pnlList_getElem? beta cost_rate py1 px1 _ u hu

/-- Witness for C2: two price pairs agreeing strictly before t = 2 yield the
same position at period 0. -/
theorem no_look_ahead_spec_witness :
    (corePositions 1 0 2 1 0 [(1:ℚ), 2, 3] [(1:ℚ), 1, 1])[0]?
      = (corePositions 1 0 2 1 0 [(1:ℚ), 2, 100] [(1:ℚ), 1, 7])[0]? :=
  ((no_look_ahead_spec 1 0 2 1 0 0 [(1:ℚ), 2, 3] [(1:ℚ), 1, 1]
      [(1:ℚ), 2, 100] [(1:ℚ), 1, 7] 2 rfl rfl rfl rfl).1 0 (by norm_num)).1

end PairsML
